import Mathlib

/-
Verification of the ZenFlow graph editor's core runtime (src/App.tsx) against
its natural-language specification.  The TypeScript data model and the pure
parts of the operations are shallowly embedded below; JS numbers are modelled
as rationals, `undefined`-able fields as `Option`, JS `Set` as `Finset String`,
and JS `Map`/array mutation as functional list update (node ids are generated
by `uid()` and are unique, under which the formulations coincide).
`Math.sin` is transcendental, hence not computable; the propagation engine is
parameterised by the signal function `sinf` standing for `Math.sin`.
-/

namespace ZenFlow

/-- Task status, from types.ts (`enum TaskStatus`). -/
inductive TaskStatus where
  | pending
  | completed
deriving DecidableEq

/-- Node kind, from types.ts (`type NodeType`). -/
inductive NodeType where
  | task
  | oscillator
  | display
  | api
  | timer
deriving DecidableEq

/-- 2D coordinate, from types.ts (`interface Coordinates`). -/
structure Coordinates where
  x : ℚ
  y : ℚ
deriving DecidableEq

/-- Kind-specific config bag, from types.ts (`TaskNode.config`).  Absent JS
fields are `none`; a missing config object behaves like the all-`none` bag. -/
structure NodeConfig where
  frequency : Option ℚ := none
  interval : Option ℚ := none
  url : Option String := none
  method : Option String := none
  jsonPath : Option String := none
  isFetching : Option Bool := none
  lastSignalWasHigh : Option Bool := none
deriving DecidableEq

/-- Graph node, from types.ts (`interface TaskNode`). -/
structure TaskNode where
  id : String
  type : NodeType
  label : String
  description : Option String := none
  status : TaskStatus
  position : Coordinates
  height : Option ℚ := none
  collapsed : Option Bool := none
  parentId : Option String := none
  createdAt : ℚ
  value : Option ℚ := none
  config : NodeConfig := {}
deriving DecidableEq

/-- Directed edge, from types.ts (`interface TaskEdge`). -/
structure TaskEdge where
  id : String
  source : String
  target : String
deriving DecidableEq

/-- Pan/zoom viewport, from App.tsx (`interface Viewport`). -/
structure Viewport where
  x : ℚ
  y : ℚ
  scale : ℚ
deriving DecidableEq

/-- The mutable application state driven by the App component's `useState`
hooks: node list, edge list, selection set, current containment scope and
viewport. -/
structure AppState where
  nodes : List TaskNode
  edges : List TaskEdge
  selectedNodeIds : Finset String
  currentScopeId : Option String
  viewport : Viewport
deriving DecidableEq

/-- JS `v || d` on an optional number: `undefined` and `0` are falsy. -/
def jsOr (v : Option ℚ) (d : ℚ) : ℚ :=
  match v with
  | none => d
  | some x => if x = 0 then d else x

/-- Truncation toward zero, as JS `Math.trunc` and the truncation implicit in
the JS `%` remainder. -/
def jsTrunc (q : ℚ) : ℤ := q.num / (q.den : ℤ)

/-- JS `%` remainder on numbers (sign follows the dividend). -/
def jsMod (a b : ℚ) : ℚ :=
  if b = 0 then 0 else a - b * (jsTrunc (a / b) : ℚ)

/-- Look a node up by id in a node list (the JS `Map` built from the array,
under unique ids). -/
def findNode (nodes : List TaskNode) (nid : String) : Option TaskNode :=
  nodes.find? (fun n => n.id = nid)

/-! ### Propagation engine (App.tsx, the DATA FLOW ENGINE `loop`, lines 130-218) -/

/-- Oscillator output, App.tsx line 143-144:
`(Math.sin(now * 0.001 * (config?.frequency || 1)) + 1) / 2`. -/
def oscVal (sinf : ℚ → ℚ) (now : ℚ) (node : TaskNode) : ℚ :=
  (sinf (now * (1 / 1000) * jsOr node.config.frequency 1) + 1) / 2

/-- Timer output, App.tsx lines 150-153: a 200ms-high pulse at the start of
each `interval`-second period. -/
def timerVal (now : ℚ) (node : TaskNode) : ℚ :=
  let period := jsOr node.config.interval 1 * 1000
  let phase := jsMod now period
  if phase < 200 then 1 else 0

/-- Producer pass for a single node (App.tsx lines 141-159): oscillators
update unless within the 0.01 epsilon; timers update on exact change.  The
returned flag is this node's contribution to `hasChanges`. -/
def processProducer (sinf : ℚ → ℚ) (now : ℚ) (node : TaskNode) : TaskNode × Bool :=
  match node.type with
  | NodeType.oscillator =>
      let val := oscVal sinf now node
      if 1 / 100 < |jsOr node.value 0 - val| then
        ({ node with value := some val }, true)
      else (node, false)
  | NodeType.timer =>
      let val := timerVal now node
      if node.value ≠ some val then ({ node with value := some val }, true)
      else (node, false)
  | _ => (node, false)

/-- Write `value` on the node with the given id (the JS mutation
`target.value = ...` seen through the node array, under unique ids). -/
def setNodeValue (nodes : List TaskNode) (nid : String) (v : ℚ) : List TaskNode :=
  nodes.map (fun n => if n.id = nid then { n with value := some v } else n)

/-- Write the fetch-initiation config on the node with the given id
(App.tsx line 177). -/
def setNodeFetchStart (nodes : List TaskNode) (nid : String) : List TaskNode :=
  nodes.map (fun n =>
    if n.id = nid then
      { n with config := { n.config with isFetching := some true, lastSignalWasHigh := some true } }
    else n)

/-- Write `lastSignalWasHigh` on the node with the given id (App.tsx
line 204). -/
def setNodeLastSignal (nodes : List TaskNode) (nid : String) (b : Bool) : List TaskNode :=
  nodes.map (fun n =>
    if n.id = nid then { n with config := { n.config with lastSignalWasHigh := some b } }
    else n)

/-- Edge propagation for a single edge (App.tsx lines 162-210).  The state is
the current node list plus the running `hasChanges` flag.  Display targets
mirror the source value; Api targets run the rising-edge fetch trigger.  The
asynchronous fetch completion itself happens outside this synchronous frame
(it is a later keyed `setNodes`), so here only the initiation is recorded. -/
def propagateEdge (st : List TaskNode × Bool) (edge : TaskEdge) : List TaskNode × Bool :=
  match findNode st.1 edge.source, findNode st.1 edge.target with
  | some source, some target =>
      match source.value with
      | none => st
      | some sv =>
          match target.type with
          | NodeType.display =>
              if target.value ≠ some sv then (setNodeValue st.1 target.id sv, true)
              else st
          | NodeType.api =>
              if 1 / 2 < sv ∧ target.config.lastSignalWasHigh.getD false = false ∧
                  target.config.isFetching.getD false = false then
                (setNodeFetchStart st.1 target.id, true)
              else
                if target.config.lastSignalWasHigh ≠ some (decide ((1 : ℚ) / 2 < sv)) then
                  (setNodeLastSignal st.1 target.id (decide ((1 : ℚ) / 2 < sv)), true)
                else st
          | _ => st
  | _, _ => st

/-- One synchronous propagation frame (the body of the `setNodes` updater in
the `loop`, App.tsx lines 133-213): producer pass over all nodes, then edge
propagation in edge order, then the dirty check — the previous collection is
returned unchanged when nothing changed. -/
def loopFrame (sinf : ℚ → ℚ) (now : ℚ) (nodes : List TaskNode)
    (edges : List TaskEdge) : List TaskNode :=
  let prod := nodes.map (processProducer sinf now)
  let nodes1 := prod.map (fun p => p.1)
  let changed1 := prod.any (fun p => p.2)
  let st := edges.foldl propagateEdge (nodes1, changed1)
  if st.2 then st.1 else nodes

/-- The frame's effect on the whole application state: the `loop` only ever
calls `setNodes`; edges, selection, scope and viewport are untouched. -/
def loopFrameState (sinf : ℚ → ℚ) (now : ℚ) (s : AppState) : AppState :=
  { s with nodes := loopFrame sinf now s.nodes s.edges }

/-- The Api target's config transition in one frame, as a function of whether
the incoming signal is above the 0.5 threshold — exactly the two branches of
App.tsx lines 176-207: initiate a fetch on a rising edge while not already
fetching, otherwise keep `lastSignalWasHigh` in sync with the signal level. -/
def apiConfigStep (high : Bool) (cfg : NodeConfig) : NodeConfig :=
  if high && !(cfg.lastSignalWasHigh.getD false) && !(cfg.isFetching.getD false) then
    { cfg with isFetching := some true, lastSignalWasHigh := some true }
  else
    if cfg.lastSignalWasHigh ≠ some high then { cfg with lastSignalWasHigh := some high }
    else cfg

/-- Scenario driver for the edge-triggered fetch: a source node feeding an
Api node through one edge, run for a list of frames.  Each frame carries the
source's value for that frame and a flag saying an in-flight fetch completed
just before it (the async completion is a keyed `setNodes` clearing
`isFetching`, App.tsx lines 184-200).  Returns the Api config after the run
and how many fetch cycles were initiated (frames on which `isFetching` went
from cleared to set — only the fetch branch sets it). -/
def runFetchFrames (src api : TaskNode) (e : TaskEdge)
    (frames : List (Bool × ℚ)) : NodeConfig × Nat :=
  frames.foldl
    (fun acc fr =>
      let srcNow := { src with value := some fr.2 }
      let cfgNow := if fr.1 then { acc.1 with isFetching := some false } else acc.1
      let apiNow := { api with config := cfgNow }
      let nodes' := (propagateEdge ([srcNow, apiNow], false) e).1
      let apiAfter := (findNode nodes' api.id).getD apiNow
      let initiated := !(cfgNow.isFetching.getD false) && apiAfter.config.isFetching.getD false
      (apiAfter.config, acc.2 + if initiated then 1 else 0))
    (api.config, 0)

/-- One scenario frame of the model: optionally apply a fetch completion
(clearing `isFetching`), take the api config transition, and count an
initiation when `isFetching` went from cleared to set.  `runFetchFrames` is
proved to coincide with folding this step (lemma `runFetchFrames_model`). -/
def fetchModelStep (acc : NodeConfig × Nat) (clear : Bool) (high : Bool) : NodeConfig × Nat :=
  let cfgNow := if clear then { acc.1 with isFetching := some false } else acc.1
  let cfg2 := apiConfigStep high cfgNow
  (cfg2, acc.2 + if !(cfgNow.isFetching.getD false) && cfg2.isFetching.getD false then 1 else 0)

/-! ### Deletion (App.tsx `deleteNode` lines 518-533, `deleteSelectedNodes`
lines 535-540) -/

/-- The containment-descendant collector inside `deleteNode` (lines 519-524):
`ids = [nodeId]` followed by appending the recursive result for each child.
The JS recursion is unbounded; a fuel argument bounds it here, and
`nodes.length` fuel fully expands any forest-shaped `parentId` relation. -/
def getAllChildren (nodes : List TaskNode) : Nat → String → List String
  | 0, nodeId => [nodeId]
  | fuel + 1, nodeId =>
      let children := nodes.filter (fun n => n.parentId = some nodeId)
      children.foldl (fun ids c => ids ++ getAllChildren nodes fuel c.id) [nodeId]

/-- `deleteNode` (App.tsx lines 518-533): collect the containment subtree,
filter it out of the node list, drop every edge touching it, and erase its
members from the selection.  `currentScopeId` and the viewport are not
touched by this handler. -/
def deleteNode (s : AppState) (nid : String) : AppState :=
  let idsToDelete := getAllChildren s.nodes s.nodes.length nid
  { s with
    nodes := s.nodes.filter (fun n => ¬ n.id ∈ idsToDelete)
    edges := s.edges.filter (fun e =>
      ¬ e.source ∈ idsToDelete ∧ ¬ e.target ∈ idsToDelete)
    selectedNodeIds := idsToDelete.foldl (fun st d => st.erase d) s.selectedNodeIds }

/-- `deleteSelectedNodes` (App.tsx lines 535-540): delete exactly the selected
ids (no containment cascade), drop edges touching them, clear the selection.
`currentScopeId` is not touched. -/
def deleteSelectedNodes (s : AppState) : AppState :=
  { s with
    nodes := s.nodes.filter (fun n => ¬ n.id ∈ s.selectedNodeIds)
    edges := s.edges.filter (fun e =>
      ¬ e.source ∈ s.selectedNodeIds ∧ ¬ e.target ∈ s.selectedNodeIds)
    selectedNodeIds := ∅ }

/-! ### Downstream closure (App.tsx `getDownstreamNodes`, lines 917-929) -/

/-- One dequeue step's inner loop (lines 923-926): for each child of the
dequeued node, if it is not yet in the result add it and enqueue it.  The
state is the result set paired with the remaining queue. -/
def enqueueChildren (p : Finset String × List String) (children : List String) :
    Finset String × List String :=
  children.foldl
    (fun p child => if child ∈ p.1 then p else (insert child p.1, p.2 ++ [child]))
    p

/-- The BFS while-loop of `getDownstreamNodes` (lines 921-927), with fuel.
Each iteration dequeues one id and enqueues its unseen edge-children. -/
def bfsAux (edges : List TaskEdge) : Nat → List String → Finset String → Finset String
  | 0, _, result => result
  | _ + 1, [], result => result
  | fuel + 1, c :: rest, result =>
      let children := (edges.filter (fun e => e.source = c)).map (fun e => e.target)
      let st := enqueueChildren (result, rest) children
      bfsAux edges fuel st.2 st.1

/-- `getDownstreamNodes(startIds, currentSet)` (App.tsx lines 917-929): the
result starts as the seed set plus the start ids, and the BFS follows edges
source-to-target.  The fuel `startIds.length + edges.length + 1` always
exceeds the number of loop iterations, since every enqueue after the initial
queue inserts a previously-unseen edge target. -/
def getDownstreamNodes (edges : List TaskEdge) (startIds : List String)
    (currentSet : Finset String) : Finset String :=
  bfsAux edges (startIds.length + edges.length + 1) startIds
    (startIds.foldl (fun s i => insert i s) currentSet)

/-- The downstream closure with the default empty seed, as used by the
selection gestures and by the specification's `downstream(S)`. -/
def downstream (edges : List TaskEdge) (startIds : List String) : Finset String :=
  getDownstreamNodes edges startIds ∅

/-- A set of ids is closed under forward edge traversal. -/
def edgeClosed (edges : List TaskEdge) (T : Set String) : Prop :=
  ∀ e ∈ edges, e.source ∈ T → e.target ∈ T

/-- All ids that appear as an edge target — every id the BFS can ever add. -/
def edgeTargets (edges : List TaskEdge) : Finset String :=
  (edges.map (fun e => e.target)).toFinset

/-! ### Breadcrumbs (App.tsx `breadcrumbs` memo, lines 931-939) -/

/-- The breadcrumb while-loop with fuel: walk `parentId` links from the
current scope, prepending each found node; stop at `null` or at a missing
node.  `none` means the fuel ran out with the walk still going — the JS loop,
which has no bound and no cycle detection, would still be running. -/
def breadcrumbAux (nodes : List TaskNode) :
    Nat → Option String → List TaskNode → Option (List TaskNode)
  | _, none, path => some path
  | 0, some _, _ => none
  | fuel + 1, some c, path =>
      match nodes.find? (fun n => n.id = c) with
      | some node => breadcrumbAux nodes fuel node.parentId (node :: path)
      | none => some path

/-- One step of the breadcrumb walk's cursor: from a scope id to the found
node's `parentId`; `none` once the walk has ended (root reached or node
missing). -/
def stepParent (nodes : List TaskNode) : Option String → Option String
  | none => none
  | some c =>
      match nodes.find? (fun n => n.id = c) with
      | some node => node.parentId
      | none => none

/-- The breadcrumb computation terminates when some finite fuel suffices. -/
def breadcrumbTerminates (nodes : List TaskNode) (scopeId : Option String) : Prop :=
  ∃ fuel, (breadcrumbAux nodes fuel scopeId []).isSome = true

/-! ### Auto-align depth assignment (App.tsx `handleAutoAlign`, lines 606-704).
Only the depth computation is embedded; the subsequent row placement consumes
the depth map. -/

/-- JS `Map.set` on an association list: overwrite an existing key in place,
otherwise append. -/
def mapSet (m : List (String × Nat)) (k : String) (v : Nat) : List (String × Nat) :=
  if m.any (fun p => p.1 = k) then m.map (fun p => if p.1 = k then (k, v) else p)
  else m ++ [(k, v)]

/-- JS `Map.get` on an association list. -/
def mapGet (m : List (String × Nat)) (k : String) : Option Nat :=
  (m.find? (fun p => p.1 = k)).map (fun p => p.2)

/-- The depth-assigning BFS of `handleAutoAlign` (lines 637-656), with fuel.
Note the order in the source: a previously visited id is skipped *before* the
`depth > depthMap.get(id)` comparison runs, so the depth stored for a node is
the one from its first dequeue. -/
def alignBFS (relevantEdges : List TaskEdge) :
    Nat → List (String × Nat) → List String → List (String × Nat) → List (String × Nat)
  | 0, _, _, depthMap => depthMap
  | _ + 1, [], _, depthMap => depthMap
  | fuel + 1, (nid, depth) :: rest, visited, depthMap =>
      if nid ∈ visited then alignBFS relevantEdges fuel rest visited depthMap
      else
        let visited' := nid :: visited
        let depthMap' :=
          if (mapGet depthMap nid).all (fun d => d < depth) then mapSet depthMap nid depth
          else depthMap
        let children :=
          (relevantEdges.filter (fun e => e.source = nid)).map (fun e => e.target)
        alignBFS relevantEdges fuel (rest ++ children.map (fun c => (c, depth + 1)))
          visited' depthMap'

/-- The depth map computed by `handleAutoAlign` over a target subset
(lines 616-661): in-degrees restricted to edges inside the subset, roots are
the zero-in-degree targets with a first-node fallback when every target is on
a cycle, BFS from the roots, then unreached targets get depth 0. -/
def handleAutoAlignDepths (nodes : List TaskNode) (edges : List TaskEdge)
    (targetNodeIds : List String) : List (String × Nat) :=
  let targetNodes := nodes.filter (fun n => n.id ∈ targetNodeIds)
  let relevantEdges := edges.filter (fun e =>
    e.source ∈ targetNodeIds ∧ e.target ∈ targetNodeIds)
  let inDegree : String → Nat := fun nid =>
    (relevantEdges.filter (fun e => e.target = nid)).length
  let roots0 := targetNodes.filter (fun n => inDegree n.id = 0)
  let roots :=
    if roots0.isEmpty ∧ ¬ targetNodes.isEmpty then targetNodes.take 1 else roots0
  let queue := roots.map (fun n => (n.id, 0))
  let bfsMap := alignBFS relevantEdges
    (targetNodeIds.length + relevantEdges.length + 1) queue [] []
  targetNodes.foldl
    (fun m n => if (mapGet m n.id).isSome then m else mapSet m n.id 0) bfsMap

/-! ### Connection gesture (App.tsx `handleConnectEnd`, lines 872-892) -/

/-- Port kind on a node: the bottom outlet (`source`) or the top inlet
(`target`). -/
inductive PortType where
  | source
  | target
deriving DecidableEq

/-- The in-progress connection gesture (App.tsx `interface ConnectionState`,
minus the pointer position, which the resolution does not read). -/
structure ConnectionState where
  isConnecting : Bool
  startNodeId : Option String
  startType : Option PortType
deriving DecidableEq

/-- Append an edge unless the ordered (source, target) pair already exists
(App.tsx lines 887-889). -/
def addEdgeIfNew (edges : List TaskEdge) (sourceId targetId eid : String) :
    List TaskEdge :=
  if edges.any (fun e => e.source = sourceId ∧ e.target = targetId) then edges
  else edges ++ [{ id := eid, source := sourceId, target := targetId }]

/-- `handleConnectEnd` (App.tsx lines 872-892): resolve the gesture on a port.
Self-drops and non-complementary port pairs are no-ops; direction is
normalised so the edge runs from the `source` port to the `target` port.
`eid` stands for the `uid()` generated for a new edge. -/
def handleConnectEnd (cs : ConnectionState) (edges : List TaskEdge)
    (endId : String) (ptype : PortType) (eid : String) : List TaskEdge :=
  match cs.isConnecting, cs.startNodeId with
  | true, some startId =>
      if startId = endId then edges
      else
        match cs.startType, ptype with
        | some PortType.source, PortType.target => addEdgeIfNew edges startId endId eid
        | some PortType.target, PortType.source => addEdgeIfNew edges endId startId eid
        | _, _ => edges
  | _, _ => edges

/-- Edge well-formedness: no self-loops and no two edges with the same
ordered (source, target) pair. -/
def edgesWellFormed (edges : List TaskEdge) : Prop :=
  (∀ e ∈ edges, e.source ≠ e.target) ∧
  edges.Pairwise (fun a b => ¬ (a.source = b.source ∧ a.target = b.target))

/-! ### AI breakdown (App.tsx `handleVerticalBreakdown`, lines 707-744) -/

/-- One suggested subtask from the breakdown collaborator. -/
structure Subtask where
  label : String
  description : String
deriving DecidableEq

/-- One suggested dependency, indices into the subtask list. -/
structure Dependency where
  fromIndex : Nat
  toIndex : Nat
deriving DecidableEq

/-- The breakdown collaborator's structured result (types.ts
`BreakdownResponse`). -/
structure BreakdownResponse where
  subtasks : List Subtask
  dependencies : List Dependency
deriving DecidableEq

/-- The new child nodes built by `handleVerticalBreakdown` (lines 715-729):
one task node per subtask, parented under the broken-down node, laid out in a
row below it.  `freshNodeId i` stands for the `uid()` of the i-th child; the
`Date.now()` creation timestamp is abstracted to 0 (no claim reads it). -/
def verticalBreakdownNodes (node : TaskNode) (result : BreakdownResponse)
    (freshNodeId : Nat → String) : List TaskNode :=
  let startY := node.position.y + 250
  let startX := node.position.x - ((result.subtasks.length - 1 : ℚ) * 300) / 2
  (List.range result.subtasks.length).filterMap (fun i =>
    (result.subtasks.get? i).map (fun sub =>
      { id := freshNodeId i
        type := NodeType.task
        label := sub.label
        description := some sub.description
        status := TaskStatus.pending
        position := { x := startX + i * 300, y := startY }
        createdAt := 0
        parentId := some node.id : TaskNode }))

/-- The new edges built by `handleVerticalBreakdown`: an edge from the parent
to every child (line 728), then one edge per suggested dependency between the
children whose indices both resolve (lines 731-735) — pushed with no
self-loop or duplicate check.  `freshEdgeId` stands for the `uid()` stream. -/
def verticalBreakdownEdges (node : TaskNode) (result : BreakdownResponse)
    (freshNodeId : Nat → String) (freshEdgeId : Nat → String) : List TaskEdge :=
  let newNodes := verticalBreakdownNodes node result freshNodeId
  let parentEdges := (List.range result.subtasks.length).filterMap (fun i =>
    (newNodes.get? i).map (fun child =>
      { id := freshEdgeId i, source := node.id, target := child.id : TaskEdge }))
  let depEdges := (List.range result.dependencies.length).filterMap (fun j =>
    (result.dependencies.get? j).bind (fun dep =>
      (newNodes.get? dep.fromIndex).bind (fun a =>
        (newNodes.get? dep.toIndex).map (fun b =>
          { id := freshEdgeId (result.subtasks.length + j)
            source := a.id, target := b.id : TaskEdge }))))
  parentEdges ++ depEdges

/-- `handleVerticalBreakdown` (lines 707-744), its synchronous state update
once the collaborator's result is in hand: when there are subtasks, append
the new nodes and edges and auto-enter the broken-down node's scope. -/
def handleVerticalBreakdown (s : AppState) (nid : String)
    (result : BreakdownResponse) (freshNodeId freshEdgeId : Nat → String) : AppState :=
  match findNode s.nodes nid with
  | none => s
  | some node =>
      if 0 < result.subtasks.length then
        { s with
          nodes := s.nodes ++ verticalBreakdownNodes node result freshNodeId
          edges := s.edges ++ verticalBreakdownEdges node result freshNodeId freshEdgeId
          currentScopeId := some node.id }
      else s

/-! ### Import (App.tsx `handleImport`, lines 432-459) -/

/-- A parsed JSON value, the result of `JSON.parse` on the imported file. -/
inductive JValue where
  | null
  | bool (b : Bool)
  | num (q : ℚ)
  | str (s : String)
  | arr (xs : List JValue)
  | obj (fields : List (String × JValue))

/-- JS property access `json.k`: defined only on objects, `undefined`
(here `none`) otherwise. -/
def jGet : JValue → String → Option JValue
  | JValue.obj fields, k => (fields.find? (fun p => p.1 = k)).map (fun p => p.2)
  | _, _ => none

/-- JS truthiness of a parsed JSON value. -/
def jsTruthy : JValue → Bool
  | JValue.null => false
  | JValue.bool b => b
  | JValue.num q => decide (q ≠ 0)
  | JValue.str s => decide (s ≠ "")
  | JValue.arr _ => true
  | JValue.obj _ => true

/-- `Array.isArray(json.nodes)` combined with the truthiness guard on `json`
itself: the acceptance condition of `handleImport` (line 437). -/
def importAccepted (j : JValue) : Bool :=
  jsTruthy j &&
    match jGet j "nodes" with
    | some (JValue.arr _) => true
    | _ => false

/-- `handleImport` (lines 432-459) after a successful `JSON.parse`: accepted
payloads replace nodes, edges, scope and viewport (with `|| []`-style
defaults) and clear the selection; anything else raises the blocking
"Invalid file" alert (the returned flag) and leaves the state untouched.
The TS code stores the payload's raw arrays directly; reading them into the
typed model is abstracted by the `decode*` parameters. -/
def handleImport (decodeNodes : JValue → List TaskNode)
    (decodeEdges : JValue → List TaskEdge) (decodeScope : JValue → Option String)
    (decodeViewport : JValue → Viewport) (j : JValue) (s : AppState) :
    AppState × Bool :=
  if importAccepted j then
    ({ s with
        nodes := decodeNodes ((jGet j "nodes").getD JValue.null)
        edges :=
          match jGet j "edges" with
          | some e => if jsTruthy e then decodeEdges e else []
          | none => []
        currentScopeId :=
          match jGet j "currentScopeId" with
          | some v => if jsTruthy v then decodeScope v else none
          | none => none
        viewport :=
          match jGet j "viewport" with
          | some v => if jsTruthy v then decodeViewport v else { x := 0, y := 0, scale := 1 }
          | none => { x := 0, y := 0, scale := 1 }
        selectedNodeIds := ∅ }, false)
  else (s, true)

/-! ### Concrete fixtures used by witnesses and counterexamples -/

/-- A minimal task node for fixtures. -/
def mkTask (nid : String) (parent : Option String) : TaskNode :=
  { id := nid
    type := NodeType.task
    label := nid
    status := TaskStatus.pending
    position := { x := 0, y := 0 }
    createdAt := 0
    parentId := parent }

/-- Fixture: a single parentless node `n1`. -/
def exDeleteState : AppState :=
  { nodes := [mkTask "n1" none]
    edges := []
    selectedNodeIds := ∅
    currentScopeId := some "n1"
    viewport := { x := 0, y := 0, scale := 1 } }

/-- Fixture: a two-node `parentId` cycle (`A`'s parent is `B`, `B`'s is `A`),
the data-corruption case the breadcrumb walk is specified to guard against. -/
def exCycleNodes : List TaskNode :=
  [mkTask "A" (some "B"), mkTask "B" (some "A")]

/-- Fixture: an acyclic parent chain `C` inside `B` inside `A`. -/
def exChainNodes : List TaskNode :=
  [mkTask "A" none, mkTask "B" (some "A"), mkTask "C" (some "B")]

/-- Fixture for the auto-align depth bug: `A -> B` directly and `A -> C -> D
-> B` as a longer path, acyclic, with `A` the only root. -/
def exAlignNodes : List TaskNode :=
  [mkTask "A" none, mkTask "B" none, mkTask "C" none, mkTask "D" none]

/-- Edges of the auto-align fixture. -/
def exAlignEdges : List TaskEdge :=
  [{ id := "e1", source := "A", target := "B" },
   { id := "e2", source := "A", target := "C" },
   { id := "e3", source := "C", target := "D" },
   { id := "e4", source := "D", target := "B" }]

/-- Fixture: a state holding a single parent node `p`, about to be broken
down. -/
def exBreakdownState : AppState :=
  { nodes := [mkTask "p" none]
    edges := []
    selectedNodeIds := ∅
    currentScopeId := none
    viewport := { x := 0, y := 0, scale := 1 } }

/-- Fixture: a breakdown result whose single dependency has equal indices —
exactly what the collaborator may return, since indices are unvalidated. -/
def exBreakdownResult : BreakdownResponse :=
  { subtasks := [{ label := "s", description := "d" }]
    dependencies := [{ fromIndex := 0, toIndex := 0 }] }

/-- Fixture: the malformed import payload of the specification's scenario,
`JSON.parse` of the text `{"foo": 1}`. -/
def exBadPayload : JValue :=
  JValue.obj [("foo", JValue.num 1)]

/-- A node is producer-stable at an instant when its producer pass makes no
update: an oscillator's freshly computed value is within the 0.01 epsilon of
the stored one, and a timer's recomputed pulse equals the stored value. -/
def producerStable (sinf : ℚ → ℚ) (now : ℚ) (node : TaskNode) : Prop :=
  (node.type = NodeType.oscillator → |jsOr node.value 0 - oscVal sinf now node| ≤ 1 / 100) ∧
  (node.type = NodeType.timer → node.value = some (timerVal now node))

/-- An edge is propagation-stable over a node list when its propagation step
writes nothing: a display target already mirrors the source value, and an api
target's `lastSignalWasHigh` already matches the signal level (which both
blocks the fetch branch and makes the sync branch a no-op). -/
def edgeStable (nodes : List TaskNode) (e : TaskEdge) : Prop :=
  ∀ src tgt, findNode nodes e.source = some src → findNode nodes e.target = some tgt →
    ∀ sv, src.value = some sv →
      (tgt.type = NodeType.display → tgt.value = some sv) ∧
      (tgt.type = NodeType.api →
        tgt.config.lastSignalWasHigh = some (decide ((1 : ℚ) / 2 < sv)))

instance producerStableDecidable (sinf : ℚ → ℚ) (now : ℚ) (node : TaskNode) :
    Decidable (producerStable sinf now node) := by
  unfold producerStable
  infer_instance

/-- Two nodes agree on every field except possibly `value` and `config` —
the footprint a propagation frame is allowed to touch. -/
def agreesExceptVC (a b : TaskNode) : Prop :=
  b.id = a.id ∧ b.type = a.type ∧ b.label = a.label ∧ b.description = a.description ∧
  b.status = a.status ∧ b.position = a.position ∧ b.height = a.height ∧
  b.collapsed = a.collapsed ∧ b.parentId = a.parentId ∧ b.createdAt = a.createdAt

/-- Fixture: a stand-in signal function that is identically zero, used to
evaluate the engine on concrete inputs. -/
def sinfZero : ℚ → ℚ := fun _ => 0

/-- Fixture: an oscillator whose stored value equals the value `sinfZero`
produces, so a frame's delta is 0, under the 0.01 epsilon. -/
def exOsc : TaskNode :=
  { mkTask "o1" none with type := NodeType.oscillator, value := some (1 / 2) }

/-- Fixture: a source node feeding the fetch scenario. -/
def exFetchSrc : TaskNode := mkTask "s1" none

/-- Fixture: an api node with a fresh default config (as `addTask` creates:
url and method set, no fetch bookkeeping yet). -/
def exFetchApi : TaskNode :=
  { mkTask "a1" none with
      type := NodeType.api
      config := { url := some "", method := some "GET" } }

/-! ### Helper lemmas -/

theorem mem_foldl_append {α β : Type} (g : β → List α) (l : List β) (init : List α)
    (x : α) (h : x ∈ init) : x ∈ l.foldl (fun ids c => ids ++ g c) init := by
  induction l generalizing init with
  | nil => exact h
  | cons c l ih => exact ih (init ++ g c) (List.mem_append_left _ h)

/-- The deleted node itself is always in the collected subtree, whatever the
fuel. -/
theorem self_mem_getAllChildren (nodes : List TaskNode) (fuel : Nat) (nid : String) :
    nid ∈ getAllChildren nodes fuel nid := by
  cases fuel with
  | zero => simp [getAllChildren]
  | succ n =>
      unfold getAllChildren
      exact mem_foldl_append _ _ _ _ (List.mem_singleton.2 rfl)

/-! ### C1 -/

/-- C1: Cascade deletion — for every state and node id present in it, after
`deleteNode` that id is gone from the node collection, and no remaining edge
references it or any member of its deleted containment subtree as source or
target. -/
theorem cascade_deletion (s : AppState) (nid : String)
    (h : nid ∈ s.nodes.map (fun n => n.id)) :
    (∀ n ∈ (deleteNode s nid).nodes, n.id ≠ nid) ∧
    (∀ e ∈ (deleteNode s nid).edges,
      e.source ∉ getAllChildren s.nodes s.nodes.length nid ∧
      e.target ∉ getAllChildren s.nodes s.nodes.length nid) := by
  constructor
  · intro n hn hid
    have hmem := (List.mem_filter.1 hn).2
    simp only [decide_eq_true_eq] at hmem
    exact hmem (hid ▸ self_mem_getAllChildren s.nodes s.nodes.length nid)
  · intro e he
    have hmem := (List.mem_filter.1 he).2
    simp only [decide_eq_true_eq] at hmem
    exact hmem

/-- C1 witness: deleting the only node of the single-node fixture empties the
node and edge collections of references to it. -/
theorem cascade_deletion_witness :
    ("n1" ∈ exDeleteState.nodes.map (fun n => n.id)) ∧
    ((∀ n ∈ (deleteNode exDeleteState "n1").nodes, n.id ≠ "n1") ∧
     (∀ e ∈ (deleteNode exDeleteState "n1").edges,
       e.source ∉ getAllChildren exDeleteState.nodes exDeleteState.nodes.length "n1" ∧
       e.target ∉ getAllChildren exDeleteState.nodes exDeleteState.nodes.length "n1")) :=
  ⟨by decide, cascade_deletion exDeleteState "n1" (by decide)⟩

/-! ### C3 -/

/-- C3: the depth-monotonicity claim fails on the code.  In the acyclic
fixture `A -> B`, `A -> C -> D -> B` (all four nodes in the target subset,
`A` the unique root, so the synthetic-root fallback is not taken), node `B`
is reachable at depths 1 and 3, and the edge `(D, B)` with `depth D = 2`
demands `depth B ≥ 3`; but the BFS skips already-visited nodes *before* the
`depth > depthMap.get(id)` update (App.tsx lines 644-650), so the "keep the
maximum" comparison is dead code and `B` keeps the depth of its first
dequeue, 1.  This contradicts the code's own comment
`// Max depth logic (keep deepest for structure)`. -/
theorem autoalign_depth_not_monotone :
    mapGet (handleAutoAlignDepths exAlignNodes exAlignEdges ["A", "B", "C", "D"]) "B"
      = some 1 ∧
    mapGet (handleAutoAlignDepths exAlignNodes exAlignEdges ["A", "B", "C", "D"]) "D"
      = some 2 ∧
    ({ id := "e4", source := "D", target := "B" : TaskEdge }
      ∈ exAlignEdges.filter (fun e => e.source ∈ ["A", "B", "C", "D"] ∧
          e.target ∈ ["A", "B", "C", "D"])) ∧
    ¬ (1 + 2 ≤ 1) := by decide

/-! ### C4 -/

/-- C4 counterexample: with the current scope anchored at node `n1`, deleting
`n1` (which has no parent, so the claim demands the scope fall back to the
root) leaves the scope id still pointing at the now-nonexistent `n1`. -/
theorem delete_scope_dangles :
    (deleteNode exDeleteState "n1").currentScopeId = some "n1" ∧
    (deleteNode exDeleteState "n1").nodes = [] ∧
    exDeleteState.currentScopeId = some "n1" ∧
    (exDeleteState.nodes.find? (fun n => n.id = "n1")).map (fun n => n.parentId)
      = some none := by decide

/-- C4 amended: neither `deleteNode` nor `deleteSelectedNodes` modifies the
current scope id at all — there is no fallback to the parent or root, so
deleting the scope anchor leaves the scope referencing a node that is no
longer in the store. -/
theorem delete_preserves_scope (s : AppState) (nid : String) :
    (deleteNode s nid).currentScopeId = s.currentScopeId ∧
    (deleteSelectedNodes s).currentScopeId = s.currentScopeId :=
  ⟨rfl, rfl⟩

/-! ### C8 -/

/-- C8: Import atomicity on malformed payloads — whenever the parsed payload
has no array-shaped `nodes` field, `handleImport` raises the blocking alert
and returns the state exactly as it was (nodes, edges, scope, viewport and
selection all untouched); and conversely any payload the import accepts is
truthy and carries an array-shaped `nodes` field. -/
theorem import_atomic_on_malformed (dN : JValue → List TaskNode)
    (dE : JValue → List TaskEdge) (dS : JValue → Option String)
    (dV : JValue → Viewport) (j : JValue) (s : AppState)
    (h : ∀ xs, jGet j "nodes" ≠ some (JValue.arr xs)) :
    handleImport dN dE dS dV j s = (s, true) ∧
    ∀ j' s', (handleImport dN dE dS dV j' s').2 = false →
      jsTruthy j' = true ∧ ∃ xs, jGet j' "nodes" = some (JValue.arr xs) := by
  constructor
  · have hacc : importAccepted j = false := by
      unfold importAccepted
      cases hj : jGet j "nodes" with
      | none => simp
      | some v => cases v <;> first | exact absurd hj (h _) | simp
    simp [handleImport, hacc]
  · intro j' s' hf
    by_cases hacc : importAccepted j' = true
    · rw [importAccepted, Bool.and_eq_true] at hacc
      refine ⟨hacc.1, ?_⟩
      have h2 := hacc.2
      revert h2
      cases hj : jGet j' "nodes" with
      | none => simp
      | some v => cases v <;> simp
    · exfalso
      rw [Bool.not_eq_true] at hacc
      simp [handleImport, hacc] at hf

/-- C8 witness: feeding the parsed `{"foo": 1}` to the import leaves the
single-node fixture state untouched and raises the error flag. -/
theorem import_atomic_witness :
    handleImport (fun _ => []) (fun _ => []) (fun _ => none)
      (fun _ => { x := 0, y := 0, scale := 1 }) exBadPayload exDeleteState
      = (exDeleteState, true) :=
  (import_atomic_on_malformed (fun _ => []) (fun _ => []) (fun _ => none)
    (fun _ => { x := 0, y := 0, scale := 1 }) exBadPayload exDeleteState
    (by intro xs hx; simp [exBadPayload, jGet] at hx)).1

/-! ### C6 -/

/-- Appending through the duplicate check preserves edge well-formedness when
the new pair is not a self-loop. -/
theorem addEdgeIfNew_wellFormed (edges : List TaskEdge) (sourceId targetId eid : String)
    (hst : sourceId ≠ targetId) (h : edgesWellFormed edges) :
    edgesWellFormed (addEdgeIfNew edges sourceId targetId eid) := by
  unfold addEdgeIfNew
  split
  · exact h
  · rename_i hdup
    constructor
    · intro e he
      rcases List.mem_append.1 he with h1 | h1
      · exact h.1 e h1
      · rcases List.mem_singleton.1 h1 with rfl
        exact hst
    · rw [List.pairwise_append]
      refine ⟨h.2, List.pairwise_singleton _ _, ?_⟩
      intro a ha b hb hab
      rcases List.mem_singleton.1 hb with rfl
      simp only [List.any_eq_true, decide_eq_true_eq, not_exists] at hdup
      exact hdup a ⟨ha, hab.1, hab.2⟩

/-- C6 counterexample: the edge well-formedness invariant is not maintained
across all edge-creating operations.  `handleVerticalBreakdown` pushes one
edge per suggested dependency with no self-loop or duplicate check (App.tsx
lines 731-735), so a collaborator result whose dependency has
`fromIndex = toIndex = 0` creates an edge from the new child to itself. -/
theorem breakdown_creates_self_loop :
    ∃ e ∈ (handleVerticalBreakdown exBreakdownState "p" exBreakdownResult
      (fun _ => "c1") (fun i => if i = 0 then "e1" else "e2")).edges,
      e.source = e.target := by decide

/-- C6 amended: the connection gesture alone upholds the invariant —
`handleConnectEnd` rejects self-drops and duplicate ordered pairs, so it maps
well-formed edge collections to well-formed edge collections; the
AI-breakdown dependency edges and the import path perform no such
validation and can introduce self-loops or duplicates. -/
theorem connect_end_well_formed (cs : ConnectionState) (edges : List TaskEdge)
    (endId : String) (ptype : PortType) (eid : String)
    (h : edgesWellFormed edges) :
    edgesWellFormed (handleConnectEnd cs edges endId ptype eid) := by
  unfold handleConnectEnd
  split
  · rename_i startId heq
    split
    · exact h
    · rename_i hne
      split
      · exact addEdgeIfNew_wellFormed _ _ _ _ hne h
      · exact addEdgeIfNew_wellFormed _ _ _ _ (fun hh => hne hh.symm) h
      · exact h
  · exact h

/-- C6 witness: completing a source-to-target drag between two distinct nodes
over an empty edge collection yields a well-formed collection. -/
theorem connect_end_well_formed_witness :
    edgesWellFormed (handleConnectEnd
      { isConnecting := true, startNodeId := some "x", startType := some PortType.source }
      [] "y" PortType.target "e9") :=
  connect_end_well_formed _ _ _ _ _ (by constructor <;> simp)

/-! ### C5 -/

/-- On the two-node `parentId` cycle, the breadcrumb walk is still running
whatever fuel it is given: the JS `while` loop never exits. -/
theorem breadcrumbAux_cycle_none : ∀ (fuel : Nat) (path : List TaskNode) (c : String),
    c = "A" ∨ c = "B" →
    breadcrumbAux exCycleNodes fuel (some c) path = none := by
  intro fuel
  induction fuel with
  | zero => intro path c _; rfl
  | succ n ih =>
      intro path c hc
      rcases hc with rfl | rfl
      · have hf : exCycleNodes.find? (fun nd => nd.id = "A")
            = some (mkTask "A" (some "B")) := by decide
        rw [breadcrumbAux, hf]
        exact ih _ _ (Or.inr rfl)
      · have hf : exCycleNodes.find? (fun nd => nd.id = "B")
            = some (mkTask "B" (some "A")) := by decide
        rw [breadcrumbAux, hf]
        exact ih _ _ (Or.inl rfl)

/-- C5 counterexample: on the collection whose `parentId` links form the
two-node cycle `A <-> B`, the breadcrumb computation does not terminate for
any iteration bound — the `while (curr)` loop of App.tsx lines 934-938 has no
cycle detection and no bound, so it hangs instead of aborting. -/
theorem breadcrumb_cycle_diverges : ¬ breadcrumbTerminates exCycleNodes (some "A") := by
  rintro ⟨fuel, hf⟩
  rw [breadcrumbAux_cycle_none fuel [] "A" (Or.inl rfl)] at hf
  simp at hf

/-- When the `parentId` chain from the scope reaches the root or a missing
node within `k` steps, fuel `k` completes the walk, for any accumulated
path. -/
theorem breadcrumbAux_isSome_of_chain_ends (nodes : List TaskNode) :
    ∀ (k : Nat) (scopeId : Option String) (path : List TaskNode),
    (stepParent nodes)^[k] scopeId = none →
    (breadcrumbAux nodes k scopeId path).isSome = true := by
  intro k
  induction k with
  | zero =>
      intro scopeId path h
      simp only [Function.iterate_zero, id_eq] at h
      subst h
      rfl
  | succ n ih =>
      intro scopeId path h
      cases scopeId with
      | none => rfl
      | some c =>
          rw [Function.iterate_succ_apply] at h
          cases hfind : nodes.find? (fun nd => nd.id = c) with
          | none =>
              rw [breadcrumbAux, hfind]
              rfl
          | some node =>
              rw [breadcrumbAux, hfind]
              have hstep : stepParent nodes (some c) = node.parentId := by
                rw [stepParent, hfind]
              rw [hstep] at h
              exact ih node.parentId _ h

/-- C5 amended: the breadcrumb computation terminates whenever the `parentId`
chain from the starting scope id reaches the root or a missing node in
finitely many steps; on a cyclic chain (a collection the claim explicitly
includes) it loops forever rather than bounding its iterations and
aborting. -/
theorem breadcrumb_terminates_of_chain_ends (nodes : List TaskNode)
    (scopeId : Option String) (k : Nat)
    (h : (stepParent nodes)^[k] scopeId = none) :
    breadcrumbTerminates nodes scopeId :=
  ⟨k, breadcrumbAux_isSome_of_chain_ends nodes k scopeId [] h⟩

/-- C5 witness: the three-node acyclic chain's walk from `C` ends within
three steps, so the breadcrumb computation terminates there. -/
theorem breadcrumb_terminates_witness :
    breadcrumbTerminates exChainNodes (some "C") :=
  breadcrumb_terminates_of_chain_ends exChainNodes (some "C") 3 (by decide)

/-! ### C7 -/

/-- A producer-stable node passes through the producer pass unchanged with no
`hasChanges` contribution; in particular an oscillator whose delta is within
the 0.01 epsilon is not updated. -/
theorem processProducer_stable (sinf : ℚ → ℚ) (now : ℚ) (node : TaskNode)
    (h : producerStable sinf now node) :
    processProducer sinf now node = (node, false) := by
  unfold processProducer
  cases ht : node.type <;> simp only
  · rw [if_neg (not_lt.2 (h.1 ht))]
  · rw [if_neg (by simp [h.2 ht])]

/-- A propagation-stable edge leaves the node list and the `hasChanges` flag
untouched. -/
theorem propagateEdge_stable (nodes : List TaskNode) (flag : Bool) (e : TaskEdge)
    (h : edgeStable nodes e) :
    propagateEdge (nodes, flag) e = (nodes, flag) := by
  unfold propagateEdge
  cases hs : findNode nodes e.source with
  | none => simp [hs]
  | some src =>
      cases ht : findNode nodes e.target with
      | none => simp [hs, ht]
      | some tgt =>
          cases hv : src.value with
          | none => simp [hs, ht, hv]
          | some sv =>
              have hst := h src tgt hs ht sv hv
              cases hty : tgt.type
              · simp [hs, ht, hv, hty]
              · simp [hs, ht, hv, hty]
              · simp only [hs, ht, hv, hty]
                rw [if_neg (by simp [hst.1 hty])]
              · simp only [hs, ht, hv, hty]
                rw [if_neg, if_neg]
                · simp [hst.2 hty]
                · rcases lt_or_le ((1 : ℚ) / 2) sv with hlt | hle
                  · rw [hst.2 hty]
                    simp [hlt]
                    intro h1 h2
                    exact absurd h1 (not_lt.2 h2)
                  · intro hc
                    exact absurd hc.1 (not_lt.2 hle)
              · simp [hs, ht, hv, hty]

/-- The edge fold runs through stable edges without changing the state. -/
theorem foldl_propagateEdge_stable (nodes : List TaskNode) :
    ∀ (edges : List TaskEdge) (flag : Bool), (∀ e ∈ edges, edgeStable nodes e) →
    edges.foldl propagateEdge (nodes, flag) = (nodes, flag) := by
  intro edges
  induction edges with
  | nil => intro flag _; rfl
  | cons e rest ih =>
      intro flag he
      rw [List.foldl_cons, propagateEdge_stable nodes flag e (he e (List.mem_cons_self e rest))]
      exact ih flag (fun e' he' => he e' (List.mem_cons_of_mem _ he'))

/-- C7: Propagation epsilon-gating — when every producer is stable (each
oscillator's newly computed value is within 0.01 of the stored one, each
timer's pulse is unchanged) and every edge's propagation is a no-op, the
frame's `hasChanges` flag stays false and the propagation step returns the
previous node collection itself, not a new one. -/
theorem epsilon_gating (sinf : ℚ → ℚ) (now : ℚ) (nodes : List TaskNode)
    (edges : List TaskEdge)
    (hp : ∀ n ∈ nodes, producerStable sinf now n)
    (he : ∀ e ∈ edges, edgeStable nodes e) :
    loopFrame sinf now nodes edges = nodes := by
  have hmap : nodes.map (processProducer sinf now) = nodes.map (fun n => (n, false)) :=
    List.map_congr_left (fun n hn => processProducer_stable sinf now n (hp n hn))
  have hn1 : (nodes.map (fun n => ((n, false) : TaskNode × Bool))).map (fun p => p.1)
      = nodes := by simp [Function.comp_def]
  have hn2 : (nodes.map (fun n => ((n, false) : TaskNode × Bool))).any (fun p => p.2)
      = false := by simp
  simp only [loopFrame, hmap, hn1, hn2]
  rw [foldl_propagateEdge_stable nodes edges false he]
  simp

/-- C7 witness: a frame over the sub-epsilon oscillator fixture (delta 0, no
edges) returns the very same collection. -/
theorem epsilon_gating_witness :
    loopFrame sinfZero 1000 [exOsc] [] = [exOsc] :=
  epsilon_gating sinfZero 1000 [exOsc] []
    (by simp [producerStable, exOsc, mkTask, oscVal, jsOr, sinfZero]) (by simp)

/-! ### C10 -/

theorem agreesExceptVC_refl (a : TaskNode) : agreesExceptVC a a :=
  ⟨rfl, rfl, rfl, rfl, rfl, rfl, rfl, rfl, rfl, rfl⟩

theorem agreesExceptVC_trans {a b c : TaskNode}
    (h1 : agreesExceptVC a b) (h2 : agreesExceptVC b c) : agreesExceptVC a c := by
  obtain ⟨e1, e2, e3, e4, e5, e6, e7, e8, e9, e10⟩ := h1
  obtain ⟨f1, f2, f3, f4, f5, f6, f7, f8, f9, f10⟩ := h2
  exact ⟨f1.trans e1, f2.trans e2, f3.trans e3, f4.trans e4, f5.trans e5,
    f6.trans e6, f7.trans e7, f8.trans e8, f9.trans e9, f10.trans e10⟩

theorem agreesExceptVC_value (n : TaskNode) (v : Option ℚ) :
    agreesExceptVC n { n with value := v } :=
  ⟨rfl, rfl, rfl, rfl, rfl, rfl, rfl, rfl, rfl, rfl⟩

theorem agreesExceptVC_config (n : TaskNode) (c : NodeConfig) :
    agreesExceptVC n { n with config := c } :=
  ⟨rfl, rfl, rfl, rfl, rfl, rfl, rfl, rfl, rfl, rfl⟩

theorem forall2_agrees_map {l st : List TaskNode} (f : TaskNode → TaskNode)
    (h : List.Forall₂ agreesExceptVC l st) (hf : ∀ x, agreesExceptVC x (f x)) :
    List.Forall₂ agreesExceptVC l (st.map f) := by
  induction h with
  | nil => exact List.Forall₂.nil
  | cons hab _ ih => exact List.Forall₂.cons (agreesExceptVC_trans hab (hf _)) ih

theorem forall2_agrees_map_self (l : List TaskNode) (f : TaskNode → TaskNode)
    (hf : ∀ x, agreesExceptVC x (f x)) :
    List.Forall₂ agreesExceptVC l (l.map f) := by
  induction l with
  | nil => exact List.Forall₂.nil
  | cons a l ih => exact List.Forall₂.cons (hf a) ih

/-- Edge propagation only ever rewrites `value` or `config` of some node: all
other fields agree pointwise with any reference list they already agreed
with. -/
theorem propagateEdge_agrees (nodes : List TaskNode) (st : List TaskNode × Bool)
    (e : TaskEdge) (h : List.Forall₂ agreesExceptVC nodes st.1) :
    List.Forall₂ agreesExceptVC nodes (propagateEdge st e).1 := by
  unfold propagateEdge
  cases hs : findNode st.1 e.source with
  | none => simpa [hs] using h
  | some src =>
      cases ht : findNode st.1 e.target with
      | none => simpa [hs, ht] using h
      | some tgt =>
          cases hv : src.value with
          | none => simpa [hs, ht, hv] using h
          | some sv =>
              cases hty : tgt.type
              · simpa [hs, ht, hv, hty] using h
              · simpa [hs, ht, hv, hty] using h
              · simp only [hs, ht, hv, hty]
                split
                · exact forall2_agrees_map _ h (fun x => by
                    split
                    · exact agreesExceptVC_value x _
                    · exact agreesExceptVC_refl x)
                · exact h
              · simp only [hs, ht, hv, hty]
                split
                · exact forall2_agrees_map _ h (fun x => by
                    split
                    · exact agreesExceptVC_config x _
                    · exact agreesExceptVC_refl x)
                · split
                  · exact forall2_agrees_map _ h (fun x => by
                      split
                      · exact agreesExceptVC_config x _
                      · exact agreesExceptVC_refl x)
                  · exact h
              · simpa [hs, ht, hv, hty] using h

/-- The producer pass only ever rewrites `value`. -/
theorem processProducer_agrees (sinf : ℚ → ℚ) (now : ℚ) (n : TaskNode) :
    agreesExceptVC n (processProducer sinf now n).1 := by
  unfold processProducer
  cases ht : n.type <;> simp only
  · exact agreesExceptVC_refl n
  · split
    · exact ⟨rfl, ht.symm, rfl, rfl, rfl, rfl, rfl, rfl, rfl, rfl⟩
    · exact agreesExceptVC_refl n
  · exact agreesExceptVC_refl n
  · exact agreesExceptVC_refl n
  · split
    · exact ⟨rfl, ht.symm, rfl, rfl, rfl, rfl, rfl, rfl, rfl, rfl⟩
    · exact agreesExceptVC_refl n

theorem foldl_propagateEdge_agrees (nodes : List TaskNode) :
    ∀ (edges : List TaskEdge) (st : List TaskNode × Bool),
    List.Forall₂ agreesExceptVC nodes st.1 →
    List.Forall₂ agreesExceptVC nodes (edges.foldl propagateEdge st).1 := by
  intro edges
  induction edges with
  | nil => intro st h; exact h
  | cons e rest ih => intro st h; exact ih _ (propagateEdge_agrees nodes st e h)

/-- C10: Frame effect — a single synchronous propagation frame leaves the
edge collection, selection, scope and viewport untouched, adds and removes no
node, and changes at most the `value` and `config` fields of each node: id,
type, label, description, status, position, height, collapsed, parentId and
createdAt are preserved pointwise. -/
theorem frame_effect (sinf : ℚ → ℚ) (now : ℚ) (s : AppState) :
    (loopFrameState sinf now s).edges = s.edges ∧
    (loopFrameState sinf now s).selectedNodeIds = s.selectedNodeIds ∧
    (loopFrameState sinf now s).currentScopeId = s.currentScopeId ∧
    (loopFrameState sinf now s).viewport = s.viewport ∧
    (loopFrameState sinf now s).nodes.length = s.nodes.length ∧
    List.Forall₂ agreesExceptVC s.nodes (loopFrameState sinf now s).nodes := by
  have hframe : List.Forall₂ agreesExceptVC s.nodes (loopFrame sinf now s.nodes s.edges) := by
    unfold loopFrame
    simp only [List.map_map]
    split
    · apply foldl_propagateEdge_agrees
      exact forall2_agrees_map_self s.nodes _ (fun x => processProducer_agrees sinf now x)
    · exact List.forall₂_same.2 (fun x _ => agreesExceptVC_refl x)
  exact ⟨rfl, rfl, rfl, rfl, (hframe.length_eq).symm, hframe⟩

/-! ### C2 -/

/-- On the two-node graph `src -> api`, one edge-propagation step transforms
the api node's config exactly as `apiConfigStep` of whether the signal is
above the 0.5 threshold. -/
theorem propagateEdge_api_config (src api : TaskNode) (eid : String)
    (hne : src.id ≠ api.id) (hty : api.type = NodeType.api) (v : ℚ) (cfgNow : NodeConfig) :
    findNode (propagateEdge ([{ src with value := some v }, { api with config := cfgNow }], false)
        { id := eid, source := src.id, target := api.id }).1 api.id
      = some { api with config := apiConfigStep (decide ((1 : ℚ) / 2 < v)) cfgNow } := by
  have hfs : findNode [{ src with value := some v }, { api with config := cfgNow }] src.id
      = some { src with value := some v } := by
    simp [findNode]
  have hft : findNode [{ src with value := some v }, { api with config := cfgNow }] api.id
      = some { api with config := cfgNow } := by
    simp [findNode, hne]
  by_cases h1 : (2⁻¹ : ℚ) < v
  · by_cases h2 : cfgNow.lastSignalWasHigh.getD false = false
    · by_cases h3 : cfgNow.isFetching.getD false = false
      · simp [propagateEdge, hfs, hft, hty, h1, h2, h3, setNodeFetchStart, findNode,
          hne, apiConfigStep]
      · cases hLS : cfgNow.lastSignalWasHigh with
        | none =>
            simp [propagateEdge, hfs, hft, hty, h1, h3, hLS, setNodeLastSignal, findNode,
              hne, apiConfigStep, h2]
        | some b =>
            cases b
            · simp [propagateEdge, hfs, hft, hty, h1, h3, hLS, setNodeLastSignal, findNode,
                hne, apiConfigStep, h2]
            · simp [hLS] at h2
    · cases hLS : cfgNow.lastSignalWasHigh with
      | none => simp [hLS] at h2
      | some b =>
          cases b
          · simp [hLS] at h2
          · simp [propagateEdge, hfs, hft, hty, h1, h2, hLS, findNode, hne, apiConfigStep]
  · cases hLS : cfgNow.lastSignalWasHigh with
    | none =>
        simp [propagateEdge, hfs, hft, hty, h1, hLS, setNodeLastSignal, findNode, hne,
          apiConfigStep]
    | some b =>
        cases b
        · simp [propagateEdge, hfs, hft, hty, h1, hLS, findNode, hne, apiConfigStep]
        · simp [propagateEdge, hfs, hft, hty, h1, hLS, setNodeLastSignal, findNode, hne,
            apiConfigStep]

/-- The fetch scenario driver coincides with folding the pure config model
over the per-frame threshold bits. -/
theorem runFetchFrames_model (src api : TaskNode) (eid : String)
    (hne : src.id ≠ api.id) (hty : api.type = NodeType.api) (frames : List (Bool × ℚ)) :
    runFetchFrames src api { id := eid, source := src.id, target := api.id } frames
      = frames.foldl (fun acc fr => fetchModelStep acc fr.1 (decide ((1 : ℚ) / 2 < fr.2)))
          (api.config, 0) := by
  unfold runFetchFrames
  apply List.foldl_ext
  intro acc fr _
  have hnd := propagateEdge_api_config src api eid hne hty fr.2
    (if fr.1 then { acc.1 with isFetching := some false } else acc.1)
  simp only [hnd, Option.getD_some, fetchModelStep]

/-- C2: Edge-triggered fetch — an Api node fed by an edge whose source value
goes low, high, high, low, high over five frames initiates exactly two fetch
cycles, one per low-to-high transition, provided the node starts out not
fetching and the first fetch's completion (clearing `isFetching`) lands
before the next rising edge (before frame 3, 4 or 5). -/
theorem edge_triggered_fetch (src api : TaskNode) (eid : String)
    (hne : src.id ≠ api.id) (hty : api.type = NodeType.api)
    (hF : api.config.isFetching.getD false = false)
    (v1 v2 v3 v4 v5 : ℚ) (c3 c4 c5 : Bool)
    (h1 : v1 ≤ 1 / 2) (h2 : 1 / 2 < v2) (h3 : 1 / 2 < v3) (h4 : v4 ≤ 1 / 2)
    (h5 : 1 / 2 < v5) (hc : (c3 || c4 || c5) = true) :
    (runFetchFrames src api { id := eid, source := src.id, target := api.id }
      [(false, v1), (false, v2), (c3, v3), (c4, v4), (c5, v5)]).2 = 2 := by
  rw [runFetchFrames_model src api eid hne hty]
  have d1 : decide ((1 : ℚ) / 2 < v1) = false := decide_eq_false (not_lt.2 h1)
  have d2 : decide ((1 : ℚ) / 2 < v2) = true := decide_eq_true h2
  have d3 : decide ((1 : ℚ) / 2 < v3) = true := decide_eq_true h3
  have d4 : decide ((1 : ℚ) / 2 < v4) = false := decide_eq_false (not_lt.2 h4)
  have d5 : decide ((1 : ℚ) / 2 < v5) = true := decide_eq_true h5
  simp only [List.foldl_cons, List.foldl_nil, d1, d2, d3, d4, d5]
  cases hIF : api.config.isFetching with
  | some b =>
      cases b
      · cases hLS : api.config.lastSignalWasHigh with
        | none =>
            cases c3 <;> cases c4 <;> cases c5 <;>
              simp [fetchModelStep, apiConfigStep, hIF, hLS] <;> simp at hc
        | some b2 =>
            cases b2 <;> cases c3 <;> cases c4 <;> cases c5 <;>
              simp [fetchModelStep, apiConfigStep, hIF, hLS] <;> simp at hc
      · rw [hIF] at hF
        simp at hF
  | none =>
      cases hLS : api.config.lastSignalWasHigh with
      | none =>
          cases c3 <;> cases c4 <;> cases c5 <;>
            simp [fetchModelStep, apiConfigStep, hIF, hLS] <;> simp at hc
      | some b2 =>
          cases b2 <;> cases c3 <;> cases c4 <;> cases c5 <;>
            simp [fetchModelStep, apiConfigStep, hIF, hLS] <;> simp at hc

/-- C2 witness: the concrete fixture run — values 0, 1, 1, 0, 1 with the
fetch completing before frame 3 — initiates exactly two fetch cycles. -/
theorem edge_triggered_fetch_witness :
    (runFetchFrames exFetchSrc exFetchApi
      { id := "ew", source := exFetchSrc.id, target := exFetchApi.id }
      [(false, 0), (false, 1), (true, 1), (false, 0), (false, 1)]).2 = 2 :=
  edge_triggered_fetch exFetchSrc exFetchApi "ew" (by decide) (by decide) (by decide)
    0 1 1 0 1 true false false one_half_pos.le one_half_lt_one one_half_lt_one
    one_half_pos.le one_half_lt_one (by decide)

/-! ### C9 -/

theorem enqueueChildren_nil (p : Finset String × List String) :
    enqueueChildren p [] = p := rfl

theorem enqueueChildren_cons (p : Finset String × List String) (ch : String)
    (cs : List String) :
    enqueueChildren p (ch :: cs)
      = enqueueChildren (if ch ∈ p.1 then p else (insert ch p.1, p.2 ++ [ch])) cs := rfl

theorem enq_subset : ∀ (cs : List String) (p : Finset String × List String),
    p.1 ⊆ (enqueueChildren p cs).1 := by
  intro cs
  induction cs with
  | nil => intro p; exact Finset.Subset.refl _
  | cons ch cs ih =>
      intro p
      rw [enqueueChildren_cons]
      by_cases hch : ch ∈ p.1
      · simpa [hch] using ih p
      · simp only [hch, if_false]
        exact subset_trans (Finset.subset_insert ch p.1) (ih (insert ch p.1, p.2 ++ [ch]))

theorem enq_mem_children : ∀ (cs : List String) (p : Finset String × List String)
    (ch : String), ch ∈ cs → ch ∈ (enqueueChildren p cs).1 := by
  intro cs
  induction cs with
  | nil => intro p ch h; cases h
  | cons ch0 cs ih =>
      intro p ch h
      rw [enqueueChildren_cons]
      rcases List.mem_cons.1 h with rfl | hcs
      · apply enq_subset
        by_cases hch : ch ∈ p.1
        · simpa [hch] using hch
        · simp [hch]
      · exact ih _ ch hcs

theorem enq_queue_mono : ∀ (cs : List String) (p : Finset String × List String)
    (x : String), x ∈ p.2 → x ∈ (enqueueChildren p cs).2 := by
  intro cs
  induction cs with
  | nil => intro p x h; exact h
  | cons ch cs ih =>
      intro p x h
      rw [enqueueChildren_cons]
      by_cases hch : ch ∈ p.1
      · simpa [hch] using ih p x h
      · simp only [hch, if_false]
        exact ih _ x (List.mem_append_left _ h)

theorem enq_mem_result : ∀ (cs : List String) (p : Finset String × List String)
    (x : String), x ∈ (enqueueChildren p cs).1 → x ∈ p.1 ∨ x ∈ cs := by
  intro cs
  induction cs with
  | nil => intro p x h; exact Or.inl h
  | cons ch cs ih =>
      intro p x h
      rw [enqueueChildren_cons] at h
      by_cases hch : ch ∈ p.1
      · rcases ih _ x (by simpa [hch] using h) with h1 | h1
        · exact Or.inl h1
        · exact Or.inr (List.mem_cons_of_mem _ h1)
      · simp only [hch, if_false] at h
        rcases ih _ x h with h1 | h1
        · rcases Finset.mem_insert.1 h1 with rfl | h2
          · exact Or.inr (List.mem_cons_self _ _)
          · exact Or.inl h2
        · exact Or.inr (List.mem_cons_of_mem _ h1)

theorem enq_mem_queue : ∀ (cs : List String) (p : Finset String × List String)
    (x : String), x ∈ (enqueueChildren p cs).2 → x ∈ p.2 ∨ x ∈ cs := by
  intro cs
  induction cs with
  | nil => intro p x h; exact Or.inl h
  | cons ch cs ih =>
      intro p x h
      rw [enqueueChildren_cons] at h
      by_cases hch : ch ∈ p.1
      · rcases ih _ x (by simpa [hch] using h) with h1 | h1
        · exact Or.inl h1
        · exact Or.inr (List.mem_cons_of_mem _ h1)
      · simp only [hch, if_false] at h
        rcases ih _ x h with h1 | h1
        · rcases List.mem_append.1 h1 with h2 | h2
          · exact Or.inl h2
          · exact Or.inr (List.mem_cons.2 (Or.inl (List.mem_singleton.1 h2)))
        · exact Or.inr (List.mem_cons_of_mem _ h1)

theorem enq_children_covered : ∀ (cs : List String) (p : Finset String × List String)
    (ch : String), ch ∈ cs → ch ∈ p.1 ∨ ch ∈ (enqueueChildren p cs).2 := by
  intro cs
  induction cs with
  | nil => intro p ch h; cases h
  | cons ch0 cs ih =>
      intro p ch h
      rw [enqueueChildren_cons]
      rcases List.mem_cons.1 h with rfl | hcs
      · by_cases hch : ch ∈ p.1
        · exact Or.inl hch
        · refine Or.inr ?_
          simp only [hch, if_false]
          exact enq_queue_mono _ _ ch (List.mem_append_right _ (List.mem_singleton.2 rfl))
      · by_cases hch0 : ch0 ∈ p.1
        · simpa [hch0] using ih p ch hcs
        · simp only [hch0, if_false]
          rcases ih (insert ch0 p.1, p.2 ++ [ch0]) ch hcs with h1 | h1
          · rcases Finset.mem_insert.1 h1 with rfl | h2
            · exact Or.inr (enq_queue_mono _ _ ch
                (List.mem_append_right _ (List.mem_singleton.2 rfl)))
            · exact Or.inl h2
          · exact Or.inr h1

theorem enq_measure : ∀ (cs : List String) (p : Finset String × List String)
    (T : Finset String), (∀ ch ∈ cs, ch ∈ T) →
    (enqueueChildren p cs).2.length + (T \ (enqueueChildren p cs).1).card
      ≤ p.2.length + (T \ p.1).card := by
  intro cs
  induction cs with
  | nil => intro p T _; exact le_refl _
  | cons ch cs ih =>
      intro p T hT
      rw [enqueueChildren_cons]
      by_cases hch : ch ∈ p.1
      · simpa [hch] using ih p T (fun c hc => hT c (List.mem_cons_of_mem _ hc))
      · simp only [hch, if_false]
        have hstep := ih (insert ch p.1, p.2 ++ [ch]) T
          (fun c hc => hT c (List.mem_cons_of_mem _ hc))
        have hchT : ch ∈ T \ p.1 :=
          Finset.mem_sdiff.2 ⟨hT ch (List.mem_cons_self _ _), hch⟩
        have hcard : (T \ insert ch p.1).card = (T \ p.1).card - 1 := by
          rw [Finset.sdiff_insert, Finset.card_erase_of_mem hchT]
        have hpos : 1 ≤ (T \ p.1).card := Finset.card_pos.2 ⟨ch, hchT⟩
        calc (enqueueChildren (insert ch p.1, p.2 ++ [ch]) cs).2.length
              + (T \ (enqueueChildren (insert ch p.1, p.2 ++ [ch]) cs).1).card
            ≤ (p.2 ++ [ch]).length + (T \ insert ch p.1).card := hstep
          _ = p.2.length + (T \ p.1).card := by
              simp only [List.length_append, List.length_singleton, hcard]
              omega

/-- The BFS loop invariant: with fuel exceeding the queue length plus the
unvisited edge targets, and with every queued id already in the result and
every result element either still queued or fully expanded, the loop finishes
with a result that contains the initial one, is closed under forward edges,
and is contained in every edge-closed superset of the initial result. -/
theorem bfsAux_spec (edges : List TaskEdge) :
    ∀ (fuel : Nat) (queue : List String) (result : Finset String),
      queue.length + ((edgeTargets edges) \ result).card < fuel →
      (∀ c ∈ queue, c ∈ result) →
      (∀ x ∈ result, x ∈ queue ∨ ∀ e ∈ edges, e.source = x → e.target ∈ result) →
      result ⊆ bfsAux edges fuel queue result ∧
      (∀ e ∈ edges, e.source ∈ bfsAux edges fuel queue result →
        e.target ∈ bfsAux edges fuel queue result) ∧
      (∀ T : Set String, (∀ x ∈ result, x ∈ T) → edgeClosed edges T →
        ∀ x ∈ bfsAux edges fuel queue result, x ∈ T) := by
  intro fuel
  induction fuel with
  | zero => intro queue result hm _ _; omega
  | succ fuel ih =>
      intro queue result hm hq hc
      cases queue with
      | nil =>
          refine ⟨Finset.Subset.refl _, ?_, ?_⟩
          · intro e he hs
            rcases hc _ hs with h | h
            · cases h
            · exact h e he rfl
          · intro T hT _ x hx
            exact hT x hx
      | cons c rest =>
          have hcres : c ∈ result := hq c (List.mem_cons_self c rest)
          have hunfold : bfsAux edges (fuel + 1) (c :: rest) result
              = bfsAux edges fuel
                  (enqueueChildren (result, rest)
                    ((edges.filter (fun e => e.source = c)).map (fun e => e.target))).2
                  (enqueueChildren (result, rest)
                    ((edges.filter (fun e => e.source = c)).map (fun e => e.target))).1 := rfl
          set children := (edges.filter (fun e => e.source = c)).map (fun e => e.target)
            with hchildren
          set st := enqueueChildren (result, rest) children with hstdef
          have hct : ∀ ch ∈ children, ch ∈ edgeTargets edges := by
            intro ch hch
            obtain ⟨e, hef, rfl⟩ := List.mem_map.1 hch
            exact List.mem_toFinset.2 (List.mem_map.2 ⟨e, (List.mem_filter.1 hef).1, rfl⟩)
          have hm' : st.2.length + ((edgeTargets edges) \ st.1).card < fuel := by
            have hme := enq_measure children (result, rest) (edgeTargets edges) hct
            rw [← hstdef] at hme
            dsimp only at hme
            simp only [List.length_cons] at hm
            omega
          have hq' : ∀ x ∈ st.2, x ∈ st.1 := by
            intro x hx
            rcases enq_mem_queue children (result, rest) x hx with hr | hch
            · exact enq_subset children (result, rest) (hq x (List.mem_cons_of_mem _ hr))
            · exact enq_mem_children children (result, rest) x hch
          have hc' : ∀ x ∈ st.1, x ∈ st.2 ∨ ∀ e ∈ edges, e.source = x → e.target ∈ st.1 := by
            intro x hx
            by_cases hxr : x ∈ result
            · rcases hc x hxr with hql | hcl
              · rcases List.mem_cons.1 hql with rfl | hrest
                · right
                  intro e he hsrc
                  apply enq_mem_children children (result, rest)
                  exact List.mem_map.2 ⟨e, List.mem_filter.2 ⟨he, by simpa using hsrc⟩, rfl⟩
                · left
                  exact enq_queue_mono children (result, rest) x hrest
              · right
                intro e he hsrc
                exact enq_subset children (result, rest) (hcl e he hsrc)
            · rcases enq_mem_result children (result, rest) x hx with hr | hch
              · exact absurd hr hxr
              · rcases enq_children_covered children (result, rest) x hch with hpr | hq2
                · exact absurd hpr hxr
                · left
                  exact hq2
          obtain ⟨s1, s2, s3⟩ := ih st.2 st.1 hm' hq' hc'
          rw [hunfold]
          refine ⟨subset_trans (enq_subset children (result, rest)) s1, s2, ?_⟩
          intro T hT hTc x hx
          refine s3 T ?_ hTc x hx
          intro y hy
          rcases enq_mem_result children (result, rest) y hy with hyr | hych
          · exact hT y hyr
          · obtain ⟨e, hef, rfl⟩ := List.mem_map.1 hych
            have hmf := List.mem_filter.1 hef
            have hsrc : e.source = c := by simpa using hmf.2
            exact hTc e hmf.1 (by rw [hsrc]; exact hT c hcres)

theorem foldl_insert_mem : ∀ (l : List String) (s : Finset String) (x : String),
    x ∈ l.foldl (fun s i => insert i s) s ↔ x ∈ s ∨ x ∈ l := by
  intro l
  induction l with
  | nil => intro s x; simp
  | cons i l ih =>
      intro s x
      rw [List.foldl_cons, ih]
      simp [Finset.mem_insert, List.mem_cons]
      tauto

/-- `downstream` computes exactly the reflexive-transitive forward closure:
it contains the seeds, is closed under edges, and is least among edge-closed
sets containing the seeds. -/
theorem downstream_spec (edges : List TaskEdge) (startIds : List String) :
    (∀ i ∈ startIds, i ∈ downstream edges startIds) ∧
    (∀ e ∈ edges, e.source ∈ downstream edges startIds →
      e.target ∈ downstream edges startIds) ∧
    (∀ T : Set String, (∀ i ∈ startIds, i ∈ T) → edgeClosed edges T →
      ∀ x ∈ downstream edges startIds, x ∈ T) := by
  have hS0 : ∀ x, x ∈ startIds.foldl (fun s i => insert i s) (∅ : Finset String)
      ↔ x ∈ startIds := by
    intro x
    rw [foldl_insert_mem]
    simp
  have hm : startIds.length
      + ((edgeTargets edges) \ startIds.foldl (fun s i => insert i s) ∅).card
      < startIds.length + edges.length + 1 := by
    have h1 : ((edgeTargets edges) \ startIds.foldl (fun s i => insert i s) ∅).card
        ≤ (edgeTargets edges).card := Finset.card_le_card Finset.sdiff_subset
    have h2 : (edgeTargets edges).card ≤ edges.length := by
      have := List.toFinset_card_le (l := edges.map (fun e => e.target))
      simpa [edgeTargets] using this
    omega
  have hq : ∀ cc ∈ startIds, cc ∈ startIds.foldl (fun s i => insert i s) (∅ : Finset String) :=
    fun cc hcc => (hS0 cc).2 hcc
  have hcl : ∀ x ∈ startIds.foldl (fun s i => insert i s) (∅ : Finset String),
      x ∈ startIds ∨ ∀ e ∈ edges, e.source = x →
        e.target ∈ startIds.foldl (fun s i => insert i s) (∅ : Finset String) :=
    fun x hx => Or.inl ((hS0 x).1 hx)
  obtain ⟨s1, s2, s3⟩ := bfsAux_spec edges (startIds.length + edges.length + 1)
    startIds (startIds.foldl (fun s i => insert i s) ∅) hm hq hcl
  exact ⟨fun i hi => s1 (hq i hi), s2,
    fun T hT hTc => s3 T (fun x hx => hT x ((hS0 x).1 hx)) hTc⟩

/-- C9: Downstream closure idempotence — running `getDownstreamNodes` (with
its default empty seed) on any enumeration `L` of its own result gives the
same set, `downstream (downstream S) = downstream S`, and the result always
contains the seed ids. -/
theorem downstream_idempotent (edges : List TaskEdge) (S L : List String)
    (hL : L.toFinset = downstream edges S) :
    downstream edges L = downstream edges S ∧ ∀ i ∈ S, i ∈ downstream edges S := by
  obtain ⟨sS1, sS2, sS3⟩ := downstream_spec edges S
  obtain ⟨sL1, sL2, sL3⟩ := downstream_spec edges L
  refine ⟨Finset.Subset.antisymm ?_ ?_, sS1⟩
  · intro x hx
    exact sL3 (fun y => y ∈ downstream edges S)
      (fun i hi => by
        have : i ∈ L.toFinset := List.mem_toFinset.2 hi
        rwa [hL] at this)
      (fun e he hs => sS2 e he hs) x hx
  · intro x hx
    rw [← hL] at hx
    exact sL1 x (List.mem_toFinset.1 hx)

/-- C9 witness: over the single edge `a -> b`, the closure of `{a}` is
`{a, b}`, whose closure is again `{a, b}`, and the seed `a` is inside. -/
theorem downstream_idempotent_witness :
    (["a", "b"] : List String).toFinset
        = downstream [{ id := "e", source := "a", target := "b" }] ["a"] ∧
    downstream [{ id := "e", source := "a", target := "b" }] ["a", "b"]
        = downstream [{ id := "e", source := "a", target := "b" }] ["a"] ∧
    ∀ i ∈ ["a"], i ∈ downstream [{ id := "e", source := "a", target := "b" }] ["a"] :=
  ⟨by decide,
   (downstream_idempotent [{ id := "e", source := "a", target := "b" }] ["a"]
     ["a", "b"] (by decide)).1,
   (downstream_idempotent [{ id := "e", source := "a", target := "b" }] ["a"]
     ["a", "b"] (by decide)).2⟩

end ZenFlow
